import Mathlib

/-!
# MindSpore: three translation units, embedded and verified

* `mindspore.lite` : `tools/converter/parser/onnx/onnx_elu_parser.cc`
* `mindspore.kernel` : `src/runtime/kernel/arm/int8/crop_int8.cc`
* `mindspore.opt` : `backend/optimizer/gpu/replace_bn_grad_cast2_fusion.h`

Stateful C++ is embedded by explicit state passing.  A call that may throw or
whose behaviour is undefined (`std::vector::at` out of range, `front()` of an
empty vector) is embedded as `Option`, `none` standing for the fault.
Members that point to objects (`crop_para_`, `context_`) are taken to be valid,
as the constructors leave them, and allocation (`new`, `std::make_unique`,
`std::make_shared`) is taken to succeed.  Declarations that live in headers
outside the three files are taken as parameters of the embedding.
-/

set_option autoImplicit false

namespace mindspore

/-- A C++ `float`, identified by its bit pattern.  The code embedded here only
copies such values, it never computes with them. -/
structure CFloat where
  bits : Nat
deriving DecidableEq, Repr

namespace lite

/-! ## `onnx_elu_parser.cc` -/

/-- Declarations used by `OnnxEluParser::Parse` that are outside the file, taken
as parameters: the status `RET_OK` (include/errorcode.h), the enumerator
`schema::PrimitiveType_Elu`, and the value that a freshly constructed
`schema::EluT` gives its field `alpha` (generated schema). -/
structure SchemaDecls where
  RET_OK : Int
  PrimitiveType_Elu : Nat
  EluT_alpha : CFloat
deriving Repr

/-- The message `onnx::AttributeProto`: the name and the scalar payloads. -/
structure AttributeProto where
  name : String
  f : CFloat
  i : Int
  s : String
deriving DecidableEq, Repr

/-- The message `onnx::NodeProto`. -/
structure NodeProto where
  name : String
  op_type : String
  input : List String
  output_ : List String
  attribute_ : List AttributeProto
deriving DecidableEq, Repr

/-- The message `onnx::GraphProto`. -/
structure GraphProto where
  name : String
  node : List NodeProto
deriving DecidableEq, Repr

/-- The table `schema::EluT`. -/
structure EluT where
  alpha : CFloat
deriving DecidableEq, Repr

/-- What the pointer `PrimitiveUnion::value` refers to: an `EluT`, or a table of
another operator (tagged by its enumerator). -/
inductive AttrTable where
  | Elu (attr : EluT)
  | Other (type : Nat)
deriving DecidableEq, Repr

/-- The union `schema::PrimitiveUnion`: a type tag and a pointer to the table,
`none` for the null pointer. -/
structure PrimitiveUnion where
  type : Nat
  value : Option AttrTable
deriving DecidableEq, Repr

/-- The table `schema::PrimitiveT`. -/
structure PrimitiveT where
  value : PrimitiveUnion
deriving DecidableEq, Repr

/-- The table `schema::CNodeT`; `primitive` is a `unique_ptr`, `none` when empty. -/
structure CNodeT where
  name : String
  inputIndex : List Nat
  outputIndex : List Nat
  primitive : Option PrimitiveT
deriving DecidableEq, Repr

/-- Body of the range-for loop of `Parse` (lines 25-30): one attribute. -/
def Parse.loopBody (attr : EluT) (onnx_node_attr : AttributeProto) : EluT :=
  let attribute_name := onnx_node_attr.name
  if attribute_name = "alpha" then { attr with alpha := onnx_node_attr.f } else attr

/-- `OnnxEluParser::Parse`.  The pointer `op` is `none` when null; the result is
the returned status and the object `op` points to after the call. -/
def Parse (D : SchemaDecls) (onnx_graph : GraphProto) (onnx_node : NodeProto)
    (op : Option CNodeT) : Int × Option CNodeT :=
  let _ := onnx_graph
  let attr : EluT := onnx_node.attribute_.foldl Parse.loopBody { alpha := D.EluT_alpha }
  match op with
  | some o =>
    let primitive : PrimitiveT :=
      { value := { type := D.PrimitiveType_Elu, value := some (AttrTable.Elu attr) } }
    (D.RET_OK, some { o with primitive := some primitive })
  | none => (D.RET_OK, none)

/-- The attributes of a node that are named exactly "alpha", in order. -/
def alphaAttributes (attrs : List AttributeProto) : List AttributeProto :=
  attrs.filter (fun a => a.name = "alpha")

/-- The value specified for `alpha`: the float of the last attribute named
"alpha", the default of the schema when there is none. -/
def lastAlpha (D : SchemaDecls) (attrs : List AttributeProto) : CFloat :=
  match (alphaAttributes attrs).getLast? with
  | some a => a.f
  | none => D.EluT_alpha

/-- An instance of the parameters: status 0, enumerator 36, default `alpha` with
bit pattern 1. -/
def sampleSchema : SchemaDecls :=
  { RET_OK := 0, PrimitiveType_Elu := 36, EluT_alpha := { bits := 1 } }

/-- An empty ONNX graph. -/
def sampleOnnxGraph : GraphProto :=
  { name := "g", node := [] }

/-- A node with three attributes: "alpha", "beta", "alpha". -/
def sampleEluNode : NodeProto :=
  { name := "elu0", op_type := "Elu", input := ["x"], output_ := ["y"],
    attribute_ := [{ name := "alpha", f := { bits := 11 }, i := 0, s := "" },
                   { name := "beta", f := { bits := 33 }, i := 0, s := "" },
                   { name := "alpha", f := { bits := 22 }, i := 0, s := "" }] }

/-- An output node that already holds a primitive of another operator. -/
def sampleCNode : CNodeT :=
  { name := "elu0", inputIndex := [0], outputIndex := [1],
    primitive := some { value := { type := 7, value := some (AttrTable.Other 7) } } }

end lite

/-- A C++ `double`, identified by its bit pattern; only copied and converted. -/
structure CDouble where
  bits : Nat
deriving DecidableEq, Repr

namespace kernel

/-! ## `crop_int8.cc` -/

/-- The struct `lite::QuantArg` carried by a tensor: the fields `Init` reads. -/
structure QuantArg where
  scale : CDouble
  zeroPoint : Int
deriving DecidableEq, Repr

/-- A `lite::Tensor` as the kernel sees it: the vector `GetQuantParams()` returns
and the buffer `MutableData()` returns, read as `int8_t` elements. -/
structure Tensor where
  quant_params_ : List QuantArg
  data_ : List Int
deriving DecidableEq, Repr

/-- The nnacl struct `QuantArg` (fields `scale_`, `zp_`). -/
structure NnaclQuantArg where
  scale_ : CFloat
  zp_ : Int
deriving DecidableEq, Repr

/-- The nnacl struct `CropQuantArg`, the type of `crop_para_->quant_arg`. -/
structure CropQuantArg where
  in_args_ : NnaclQuantArg
  out_args_ : NnaclQuantArg
  output_activation_min_ : Int
  output_activation_max_ : Int
deriving DecidableEq, Repr

/-- The nnacl struct `CropParameter`: the members this file names.  The shape
pointers are `none` when null. -/
structure CropParameter where
  quant_arg : CropQuantArg
  in_shape_ : Option (List Int)
  out_shape_ : Option (List Int)
deriving DecidableEq, Repr

/-- The state of a `CropInt8CPUKernel` object: the members this file names.
`thread_pool_` is the handle `this->context_->thread_pool_`. -/
structure CropInt8CPUKernel where
  in_tensors_ : List Tensor
  out_tensors_ : List Tensor
  crop_para_ : CropParameter
  thread_count_ : Int
  thread_pool_ : Nat
deriving DecidableEq, Repr

/-- The result of a member function: `none` when the call faults (an exception
or undefined behaviour), else the returned `int` and the object afterwards. -/
abbrev Outcome := Option (Int × CropInt8CPUKernel)

/-- Declarations used by `crop_int8.cc` that are outside the file, taken as
parameters: the status `RET_OK`, the indices `kInputIndex` and `kOutputIndex`,
the conversion applied when a `double` scale is assigned to a `float` field, the
base-class members `CropBaseCPUKernel::Init`, `CropBaseCPUKernel::ReSize`,
`InferShapeDone` and `Prepare`, the launcher `ParallelLaunch` (pool, task
function, its data, number of tasks) and the nnacl routine `Crop` (input buffer,
output buffer, task id, parameter; gives the output buffer afterwards). -/
structure KernelDecls where
  RET_OK : Int
  kInputIndex : Nat
  kOutputIndex : Nat
  scaleToFloat : CDouble → CFloat
  CropBaseCPUKernel_Init : CropInt8CPUKernel → Outcome
  CropBaseCPUKernel_ReSize : CropInt8CPUKernel → Outcome
  InferShapeDone : CropInt8CPUKernel → Bool
  Prepare : CropInt8CPUKernel → Outcome
  ParallelLaunch : Nat → (CropInt8CPUKernel → Int → Outcome) → CropInt8CPUKernel → Int → Outcome
  Crop : List Int → List Int → Int → CropParameter → List Int

/-- `std::numeric_limits<int8_t>::max()`. -/
def int8_max : Int := 127

/-- `std::numeric_limits<int8_t>::min()`. -/
def int8_min : Int := -128

/-- `CropInt8CPUKernel::ReSize` (line 65). -/
def ReSize (D : KernelDecls) (this : CropInt8CPUKernel) : Outcome :=
  D.CropBaseCPUKernel_ReSize this

/-- Lines 35-46 of `Init`: the reads of the first quantization parameters and
the writes to `crop_para_->quant_arg`.  `xs[i]?` embeds `at(i)` and `head?`
embeds `front()`. -/
def Init.setQuantArg (D : KernelDecls) (this : CropInt8CPUKernel) : Option CropInt8CPUKernel := do
  let input_tensor ← this.in_tensors_[D.kInputIndex]?
  let in_quant_args := input_tensor.quant_params_
  let in_front ← in_quant_args.head?
  let this := { this with crop_para_.quant_arg.in_args_.scale_ := D.scaleToFloat in_front.scale }
  let this := { this with crop_para_.quant_arg.in_args_.zp_ := in_front.zeroPoint }
  let out_tensor ← this.out_tensors_[D.kOutputIndex]?
  let out_quant_args := out_tensor.quant_params_
  let out_front ← out_quant_args.head?
  let this := { this with crop_para_.quant_arg.out_args_.scale_ := D.scaleToFloat out_front.scale }
  let this := { this with crop_para_.quant_arg.out_args_.zp_ := out_front.zeroPoint }
  let this := { this with crop_para_.quant_arg.output_activation_max_ := int8_max }
  let this := { this with crop_para_.quant_arg.output_activation_min_ := int8_min }
  pure this

/-- `CropInt8CPUKernel::Init` (lines 30-51). -/
def Init (D : KernelDecls) (this : CropInt8CPUKernel) : Outcome :=
  match D.CropBaseCPUKernel_Init this with
  | none => none
  | some (ret, this) =>
    if ret ≠ D.RET_OK then some (ret, this)
    else
      match Init.setQuantArg D this with
      | none => none
      | some this => if !D.InferShapeDone this then some (D.RET_OK, this) else ReSize D this

/-- `CropInt8CPUKernel::DoExecute` (lines 83-90). -/
def DoExecute (D : KernelDecls) (this : CropInt8CPUKernel) (task_id : Int) : Outcome := do
  let input_tensor ← this.in_tensors_[D.kInputIndex]?
  let out_tensor ← this.out_tensors_[D.kOutputIndex]?
  let input_data := input_tensor.data_
  let output_data := out_tensor.data_
  let output_data := D.Crop input_data output_data task_id this.crop_para_
  let out_tensor := { out_tensor with data_ := output_data }
  pure (D.RET_OK, { this with out_tensors_ := this.out_tensors_.set D.kOutputIndex out_tensor })

/-- `CropInt8Run` (lines 77-81): the value of `DoExecute` is dropped. -/
def CropInt8Run (D : KernelDecls) (cdata : CropInt8CPUKernel) (task_id : Int) : Outcome :=
  let crop := cdata
  match DoExecute D crop task_id with
  | none => none
  | some (_, crop) => some (D.RET_OK, crop)

/-- `CropInt8CPUKernel::Run` (lines 67-75). -/
def Run (D : KernelDecls) (this : CropInt8CPUKernel) : Outcome :=
  match D.Prepare this with
  | none => none
  | some (ret, this) =>
    if ret ≠ D.RET_OK then some (ret, this)
    else
      let ret := D.ParallelLaunch this.thread_pool_ (CropInt8Run D) this this.thread_count_
      ret

/-- A call reports `RET_OK`: it returns, and the status is `RET_OK`. -/
def reportsOK (D : KernelDecls) (r : Outcome) : Prop :=
  ∃ this, r = some (D.RET_OK, this)

/-- A launcher to instantiate `ParallelLaunch` with: tasks `0 .. task_num - 1` one
after the other from `next` on, stopping at the first status that is not `ok`. -/
def launchFrom (ok : Int) (job : CropInt8CPUKernel → Int → Outcome) :
    Nat → Int → CropInt8CPUKernel → Outcome
  | 0, _, content => some (ok, content)
  | n + 1, next, content =>
    match job content next with
    | none => none
    | some (ret, content) => if ret ≠ ok then some (ret, content) else launchFrom ok job n (next + 1) content

/-- An instance of the parameters: status 0 for `RET_OK`, index 0 for both
tensors, base members that succeed and change nothing, shape inference not
done, a `Crop` that copies the input buffer, the sequential launcher. -/
def sampleDecls : KernelDecls where
  RET_OK := 0
  kInputIndex := 0
  kOutputIndex := 0
  scaleToFloat := fun d => { bits := d.bits }
  CropBaseCPUKernel_Init := fun this => some (0, this)
  CropBaseCPUKernel_ReSize := fun this => some (0, this)
  InferShapeDone := fun _ => false
  Prepare := fun this => some (0, this)
  ParallelLaunch := fun _ job content task_num => launchFrom 0 job task_num.toNat 0 content
  Crop := fun input _ _ _ => input

/-- The parameters `sampleDecls` with a `Prepare` that reports status `-1`. -/
def failingPrepareDecls : KernelDecls :=
  { sampleDecls with Prepare := fun this => some (-1, this) }

/-- The parameters `sampleDecls` with a base `Init` that reports status `-1`. -/
def failingInitDecls : KernelDecls :=
  { sampleDecls with CropBaseCPUKernel_Init := fun this => some (-1, this) }

/-- A crop parameter with all quantization fields zero and null shapes. -/
def zeroCropParameter : CropParameter :=
  { quant_arg := { in_args_ := { scale_ := { bits := 0 }, zp_ := 0 },
                   out_args_ := { scale_ := { bits := 0 }, zp_ := 0 },
                   output_activation_min_ := 0, output_activation_max_ := 0 },
    in_shape_ := none, out_shape_ := none }

/-- A kernel with one quantized input tensor and one quantized output tensor. -/
def sampleKernel : CropInt8CPUKernel :=
  { in_tensors_ := [{ quant_params_ := [{ scale := { bits := 5 }, zeroPoint := 3 }], data_ := [1, 2, 3, 4] }],
    out_tensors_ := [{ quant_params_ := [{ scale := { bits := 7 }, zeroPoint := -2 }], data_ := [0, 0] }],
    crop_para_ := zeroCropParameter, thread_count_ := 2, thread_pool_ := 0 }

/-- A kernel whose input tensor carries no quantization parameter. -/
def unquantizedKernel : CropInt8CPUKernel :=
  { sampleKernel with in_tensors_ := [{ quant_params_ := [], data_ := [1, 2, 3, 4] }] }

end kernel
namespace opt

/-! ## `replace_bn_grad_cast2_fusion.h`: construction of the pass -/

/-- The free store: the addresses of the objects that are alive. -/
structure Heap where
  live : List Nat
deriving DecidableEq, Repr

/-- A `VarPtr` (`std::shared_ptr<Var>`), identified by the address of the `Var`
it owns. -/
structure VarPtr where
  addr : Nat
deriving DecidableEq, Repr

/-- The allocation done by `std::make_shared`: it picks the address of the new
object from the free store as it stands. -/
abbrev Allocator := Heap → Nat

/-- What C++ guarantees of an allocation: the address of a new object is the
address of no object that is alive. -/
def Allocator.Fresh (alloc : Allocator) : Prop :=
  ∀ h : Heap, alloc h ∉ h.live

/-- `std::make_shared<Var>()`: a new `Var` is created, and stays alive as long as
a `VarPtr` owns it. -/
def make_shared_Var (alloc : Allocator) (h : Heap) : VarPtr × Heap :=
  let a := alloc h
  ({ addr := a }, { live := a :: h.live })

/-- The members of a `ReplaceBNGradCast2Fusion` object: the name and the flag
handed to the base `PatternProcessPass`, and the nine `VarPtr` members
(lines 42-50). -/
structure ReplaceBNGradCast2Fusion where
  name : String
  multigraph : Bool
  dy_ : VarPtr
  x_ : VarPtr
  scale_ : VarPtr
  mean_ : VarPtr
  var_ : VarPtr
  dx_ : VarPtr
  bn_scale_ : VarPtr
  bn_bias_ : VarPtr
  index_ : VarPtr
deriving DecidableEq, Repr

/-- The constructor `ReplaceBNGradCast2Fusion(bool multigraph)` (lines 26-36): the
object constructed and the free store afterwards. -/
def ReplaceBNGradCast2Fusion.new (alloc : Allocator) (multigraph : Bool) (h : Heap) :
    ReplaceBNGradCast2Fusion × Heap :=
  let (dy_, h) := make_shared_Var alloc h
  let (x_, h) := make_shared_Var alloc h
  let (scale_, h) := make_shared_Var alloc h
  let (mean_, h) := make_shared_Var alloc h
  let (var_, h) := make_shared_Var alloc h
  let (dx_, h) := make_shared_Var alloc h
  let (bn_scale_, h) := make_shared_Var alloc h
  let (bn_bias_, h) := make_shared_Var alloc h
  let (index_, h) := make_shared_Var alloc h
  ({ name := "replace_grad_cast2", multigraph := multigraph,
     dy_ := dy_, x_ := x_, scale_ := scale_, mean_ := mean_, var_ := var_, dx_ := dx_,
     bn_scale_ := bn_scale_, bn_bias_ := bn_bias_, index_ := index_ }, h)

/-- The nine pattern variables of a pass object, in declaration order. -/
def ReplaceBNGradCast2Fusion.vars (p : ReplaceBNGradCast2Fusion) : List VarPtr :=
  [p.dy_, p.x_, p.scale_, p.mean_, p.var_, p.dx_, p.bn_scale_, p.bn_bias_, p.index_]

/-- An allocator to instantiate `Allocator` with: one past the largest address
that is alive. -/
def bumpAllocator : Allocator :=
  fun h => h.live.foldr max 0 + 1


/-! ## Graph IR, matcher and rewrite executor

The header declares `DefinePattern` and `Process`; their bodies, and the
pattern engine behind `PatternProcessPass`, are outside the three files.  The
definitions of this section follow sections 3, 4 and 8 of the specification. -/

/-- Modelled from the spec: the identity of a node (section 3, "Identity is
unique within a graph"); the graph IR is missing from the sources. -/
abbrev NodeId := Nat

/-- Modelled from the spec: the kind tag of a node (section 3).  `Cast` and
`BatchNormGrad` are the kinds the pattern names, `FusedBatchNormGrad` the kind of
the node the pass builds, `Other` any further operator or graph input. -/
inductive Kind where
  | Cast
  | BatchNormGrad
  | FusedBatchNormGrad
  | Other (tag : Nat)
deriving DecidableEq, Repr

/-- Modelled from the spec: a node (section 3): a kind tag, the ordered list of
its input edges and its attributes.  A node is taken to produce one value, so
an input edge is given by its producer, and its input slot is its position in
`inputs`. -/
structure Node where
  kind : Kind
  inputs : List NodeId
  attrs : List (String × Int)
deriving DecidableEq, Repr

/-- Modelled from the spec: a graph (section 3): the mapping from node identity
to node, as an association list, and the designated output nodes. -/
structure Graph where
  nodes : List (NodeId × Node)
  outputs : List NodeId
deriving DecidableEq, Repr

/-- Modelled from the spec: the node a graph maps an identity to. -/
def lookupNode : List (NodeId × Node) → NodeId → Option Node
  | [], _ => none
  | (k, nd) :: rest, n => if k = n then some nd else lookupNode rest n

/-- Modelled from the spec: the node a graph maps an identity to. -/
def Graph.lookup (g : Graph) (n : NodeId) : Option Node :=
  lookupNode g.nodes n

/-- Modelled from the spec: the identity `n` is that of a node of the graph. -/
def Graph.contains (g : Graph) (n : NodeId) : Bool :=
  g.nodes.any (fun e => e.1 = n)

/-- Modelled from the spec: the consumers of node `n` (section 3, "a node may
have zero or more consumer edges"): the nodes with an input edge from `n`. -/
def Graph.consumers (g : Graph) (n : NodeId) : List NodeId :=
  (g.nodes.filter (fun e => e.2.inputs.contains n)).map (fun e => e.1)

/-- Modelled from the spec: there is an edge from producer `b` into consumer `a`
(section 3, Edge). -/
def Graph.Edge (g : Graph) (a b : NodeId) : Prop :=
  ∃ nd, (a, nd) ∈ g.nodes ∧ b ∈ nd.inputs

/-- Modelled from the spec: the graph invariant "acyclic" (section 3): no node
reaches itself along input edges. -/
def Graph.Acyclic (g : Graph) : Prop :=
  ∀ n, ¬ Relation.TransGen g.Edge n n

/-- Modelled from the spec: the producers of the input edges of node `a`. -/
def Graph.succs (g : Graph) (a : NodeId) : List NodeId :=
  (g.nodes.filter (fun e => e.1 = a)).flatMap (fun e => e.2.inputs)

/-- Modelled from the spec: the nodes reached from `a` along at least one and at
most `k` input edges. -/
def Graph.reach (g : Graph) : Nat → NodeId → List NodeId
  | 0, _ => []
  | k + 1, a => g.succs a ++ (g.succs a).flatMap (g.reach k)

/-- Modelled from the spec: the check of acyclicity that the rewrite executor
re-runs (section 4.3 (c)): no node reaches itself within as many edges as the
graph has nodes. -/
def Graph.acyclicCheck (g : Graph) : Bool :=
  g.nodes.all (fun e => !(g.reach g.nodes.length e.1).contains e.1)

/-- Modelled from the spec: the check of edge consistency that the rewrite
executor re-runs (sections 3 and 4.3 (c)): the producer of every edge, and every
designated output, is a node of the graph. -/
def Graph.edgeConsistent (g : Graph) : Bool :=
  g.nodes.all (fun e => e.2.inputs.all (fun i => g.contains i))
    && g.outputs.all (fun o => g.contains o)

/-- Modelled from the spec: an identity no node of the graph has, for a node
the rewrite executor inserts. -/
def Graph.freshId (g : Graph) : NodeId :=
  (g.nodes.map (fun e => e.1)).foldr max 0 + 1

/-- Modelled from the spec: section 4.3 (a), an edge end that pointed at `root`
points at `new` instead. -/
def redirectId (root new : NodeId) (i : NodeId) : NodeId :=
  if i = root then new else i

/-- Modelled from the spec: section 4.3 (a), the input edges of a consumer after
the redirection. -/
def redirectNode (root new : NodeId) (nd : Node) : Node :=
  { nd with inputs := nd.inputs.map (redirectId root new) }

/-- Modelled from the spec: section 4.3 (a), "redirects every consumer edge that
previously pointed at the root of the matched subgraph to instead point at the
new replacement node"; a designation of the root as output moves with it. -/
def Graph.redirect (g : Graph) (root new : NodeId) : Graph :=
  { nodes := g.nodes.map (fun e => (e.1, redirectNode root new e.2)),
    outputs := g.outputs.map (redirectId root new) }

/-- Modelled from the spec: a node is added to the graph under a new identity. -/
def Graph.insert (g : Graph) (id : NodeId) (nd : Node) : Graph :=
  { g with nodes := g.nodes ++ [(id, nd)] }

/-- Modelled from the spec: a node is removed from the graph. -/
def Graph.remove (g : Graph) (n : NodeId) : Graph :=
  { g with nodes := g.nodes.filter (fun e => e.1 ≠ n) }

/-- Modelled from the spec: section 4.3 (b), "removes the now-unreachable matched
nodes (those with zero remaining consumers after redirection)"; a node that is
still referenced, by an edge or as an output, is kept.  The matched nodes are
visited root first. -/
def Graph.removeOrphans (g : Graph) : List NodeId → Graph
  | [] => g
  | m :: ms =>
    if g.consumers m = [] ∧ m ∉ g.outputs then (g.remove m).removeOrphans ms
    else g.removeOrphans ms

/-- Modelled from the spec: the failures of the binder (section 4.1). -/
inductive BindError where
  | ConflictingBinding
  | UnboundVariable
deriving DecidableEq, Repr

/-- Modelled from the spec: the match environment (section 3), a mapping from
pattern variable to the node bound to it. -/
abbrev Environment := List (VarPtr × NodeId)

/-- Modelled from the spec: the node a variable is bound to, if any. -/
def Environment.find : Environment → VarPtr → Option NodeId
  | [], _ => none
  | (w, n) :: rest, v => if w = v then some n else Environment.find rest v

/-- Modelled from the spec: section 4.1, `bind(variable, node_or_value)` "fails
with ConflictingBinding if the variable is already bound to a different value
within the same match attempt". -/
def Environment.bind (env : Environment) (v : VarPtr) (n : NodeId) : Except BindError Environment :=
  match env.find v with
  | none => Except.ok ((v, n) :: env)
  | some m => if m = n then Except.ok env else Except.error BindError.ConflictingBinding

/-- Modelled from the spec: section 4.1, `resolve(variable)` "fails with
UnboundVariable if queried before binding". -/
def Environment.resolve (env : Environment) (v : VarPtr) : Except BindError NodeId :=
  match env.find v with
  | none => Except.error BindError.UnboundVariable
  | some n => Except.ok n

/-- Modelled from the spec: the operator registry (section 6), the expected
number of inputs of a kind; `none` for a kind it holds no entry for. -/
def arity : Kind → Option Nat
  | Kind.Cast => some 1
  | Kind.BatchNormGrad => some 6
  | Kind.FusedBatchNormGrad => some 5
  | Kind.Other _ => none

/-- Modelled from the spec: `n` inputs agree with the arity the registry gives
the kind. -/
def arityOk (k : Kind) (n : Nat) : Bool :=
  match arity k with
  | none => true
  | some a => a = n

mutual
/-- Modelled from the spec: a pattern (section 4.1), "a tree of node-kind
constraints with embedded Pattern Variables standing in for specific operands". -/
inductive Pattern where
  | var (v : VarPtr)
  | node (kind : Kind) (children : PatternList)
/-- Modelled from the spec: the children of a pattern node, one per input. -/
inductive PatternList where
  | nil
  | cons (head : Pattern) (tail : PatternList)
end

mutual
/-- Modelled from the spec: section 4.2, the matcher at one node: a variable is
bound to the node; a kind constraint fails on kind mismatch, else recurses "into
each input edge against the corresponding pattern child"; any violation yields
no match. -/
def matchNode (g : Graph) : Pattern → NodeId → Environment → Option Environment
  | Pattern.var v, n, env =>
    match g.lookup n with
    | none => none
    | some _ =>
      match env.bind v n with
      | Except.ok env1 => some env1
      | Except.error _ => none
  | Pattern.node k cs, n, env =>
    match g.lookup n with
    | none => none
    | some nd =>
      if nd.kind = k ∧ arityOk k nd.inputs.length = true then matchInputs g cs nd.inputs env
      else none
/-- Modelled from the spec: section 4.2, the matcher along the input edges of a
node, in order. -/
def matchInputs (g : Graph) : PatternList → List NodeId → Environment → Option Environment
  | PatternList.nil, [], env => some env
  | PatternList.cons p ps, i :: rest, env =>
    match matchNode g p i env with
    | none => none
    | some env1 => matchInputs g ps rest env1
  | _, _, _ => none
end

/-- Modelled from the spec: section 4.2, `match(graph, pattern, anchor_node) ->
Option<Environment>`, the environment being created for the attempt. -/
def Match (g : Graph) (pattern : Pattern) (anchor_node : NodeId) : Option Environment :=
  matchNode g pattern anchor_node []

mutual
/-- Modelled from the spec: the nodes of the matched subgraph (those a kind
constraint of the pattern was matched against), root first. -/
def matchedNodes (g : Graph) : Pattern → NodeId → List NodeId
  | Pattern.var _, _ => []
  | Pattern.node _ cs, n =>
    match g.lookup n with
    | none => [n]
    | some nd => n :: matchedInputs g cs nd.inputs
/-- Modelled from the spec: the matched nodes below the input edges of a node. -/
def matchedInputs (g : Graph) : PatternList → List NodeId → List NodeId
  | PatternList.cons p ps, i :: rest => matchedNodes g p i ++ matchedInputs g ps rest
  | _, _ => []
end

/-- Modelled from the spec: the `ReplacementOutcome` of section 4.3 with the
failures of section 7 that a rewrite can end in.  `Success` carries the graph
after the substitution and the identity of the replacement node; on a failure
the graph is left as it was. -/
inductive ReplacementOutcome where
  | Success (graph : Graph) (replacement : NodeId)
  | UnboundVariable
  | InvalidRewrite
  | GraphInvariantViolation
deriving DecidableEq, Repr

/-- Modelled from the spec: section 4.3, `rewrite(graph, environment,
replacement_builder)` for the subgraph matched at `root`: the builder constructs
the replacement node from the environment; a node whose number of inputs is not
the arity declared for its kind, or with an input that is no node bound in the
environment, is an `InvalidRewrite`; else (a) the consumers of the root are
redirected to the replacement, (b) the matched nodes left without consumer are
removed, (c) acyclicity and edge consistency are checked again. -/
def rewrite (g : Graph) (root : NodeId) (matched : List NodeId) (env : Environment)
    (builder : Environment → Except BindError Node) : ReplacementOutcome :=
  match builder env with
  | Except.error _ => ReplacementOutcome.UnboundVariable
  | Except.ok nd =>
    if arityOk nd.kind nd.inputs.length = true
        ∧ nd.inputs.all (fun i => (env.map (fun b => b.2)).contains i) = true then
      let id := g.freshId
      let g1 := (g.redirect root id).insert id nd
      let g2 := g1.removeOrphans matched
      if g2.edgeConsistent = true ∧ g2.acyclicCheck = true then ReplacementOutcome.Success g2 id
      else ReplacementOutcome.GraphInvariantViolation
    else ReplacementOutcome.InvalidRewrite

/-- Modelled from the spec: `ReplaceBNGradCast2Fusion::DefinePattern`, whose body is
missing from the sources: the pattern "Cast(BatchNormGrad(dy,x,scale,mean,var,index))"
of section 8 over the variables of the pass object. -/
def ReplaceBNGradCast2Fusion.DefinePattern (p : ReplaceBNGradCast2Fusion) : Pattern :=
  Pattern.node Kind.Cast (PatternList.cons
    (Pattern.node Kind.BatchNormGrad
      (PatternList.cons (Pattern.var p.dy_) (PatternList.cons (Pattern.var p.x_)
        (PatternList.cons (Pattern.var p.scale_) (PatternList.cons (Pattern.var p.mean_)
          (PatternList.cons (Pattern.var p.var_) (PatternList.cons (Pattern.var p.index_)
            PatternList.nil)))))))
    PatternList.nil)

/-- Modelled from the spec: the builder of the pass, missing from the sources:
"one fused node with 5 inputs mirroring dy,x,scale,mean,var" (section 8), each
input resolved from the environment. -/
def ReplaceBNGradCast2Fusion.Build (p : ReplaceBNGradCast2Fusion) (env : Environment) :
    Except BindError Node := do
  let dy ← env.resolve p.dy_
  let x ← env.resolve p.x_
  let scale ← env.resolve p.scale_
  let mean ← env.resolve p.mean_
  let var ← env.resolve p.var_
  pure { kind := Kind.FusedBatchNormGrad, inputs := [dy, x, scale, mean, var], attrs := [] }

/-- Modelled from the spec: `ReplaceBNGradCast2Fusion::Process(graph, node, equiv)`,
whose body is missing from the sources: the rewrite of section 4.3 at the anchor
`node` with the environment `equiv` of the match and the builder of the pass. -/
def ReplaceBNGradCast2Fusion.Process (p : ReplaceBNGradCast2Fusion) (graph : Graph)
    (node : NodeId) (equiv : Environment) : ReplacementOutcome :=
  rewrite graph node (matchedNodes graph p.DefinePattern node) equiv p.Build

/-- Modelled from the spec: the graph invariants that a rewrite checks again
(sections 3 and 4.3 (c)): edge consistency and acyclicity. -/
structure Graph.Valid (g : Graph) : Prop where
  edges : g.edgeConsistent = true
  acyclic : g.Acyclic

/-- Modelled from the spec: the scenario of section 8, a graph that holds the chain
"Cast(BatchNormGrad(dy,x,scale,mean,var,index))" at the nodes `cast` and `bn`,
"with no other consumers of BatchNormGrad's output". -/
structure Graph.HasChain (g : Graph) (cast bn dy x scale mean var index : NodeId) : Prop where
  cast_node : ∃ attrs, g.lookup cast = some { kind := Kind.Cast, inputs := [bn], attrs := attrs }
  bn_node : ∃ attrs, g.lookup bn =
    some { kind := Kind.BatchNormGrad, inputs := [dy, x, scale, mean, var, index], attrs := attrs }
  only_consumer : ∀ n ∈ g.consumers bn, n = cast
  not_output : bn ∉ g.outputs

/-- Modelled from the spec: the fused node of section 8, "one fused node with 5
inputs mirroring dy,x,scale,mean,var". -/
def fusedNode (dy x scale mean var : NodeId) : Node :=
  { kind := Kind.FusedBatchNormGrad, inputs := [dy, x, scale, mean, var], attrs := [] }

/-- A leaf node: a graph input of kind `Other tag`. -/
def leafNode (tag : Nat) : Node :=
  { kind := Kind.Other tag, inputs := [], attrs := [] }

/-- A graph holding the chain of section 8: producers 1 to 6, the `BatchNormGrad`
node 7 over them, the `Cast` node 8 over node 7, and a consumer 9 of the cast,
which is the output of the graph. -/
def sampleGraph : Graph :=
  { nodes := [(1, leafNode 1), (2, leafNode 2), (3, leafNode 3), (4, leafNode 4),
              (5, leafNode 5), (6, leafNode 6),
              (7, { kind := Kind.BatchNormGrad, inputs := [1, 2, 3, 4, 5, 6], attrs := [] }),
              (8, { kind := Kind.Cast, inputs := [7], attrs := [] }),
              (9, { kind := Kind.Other 0, inputs := [8], attrs := [] })],
    outputs := [9] }

/-- The pass object constructed on an empty free store. -/
def samplePass : ReplaceBNGradCast2Fusion :=
  (ReplaceBNGradCast2Fusion.new bumpAllocator true { live := [] }).1

end opt

/-! # Theorems -/
namespace lite

/-- The loop of `Parse` leaves in `alpha` the float of the last attribute named
"alpha", or the initial value when there is none. -/
theorem foldl_loopBody_alpha (attrs : List AttributeProto) (a : EluT) :
    (attrs.foldl Parse.loopBody a).alpha =
      match (alphaAttributes attrs).getLast? with
      | some x => x.f
      | none => a.alpha := by
  induction attrs generalizing a with
  | nil => simp [alphaAttributes]
  | cons x xs ih =>
    rw [List.foldl_cons, ih]
    by_cases hx : x.name = "alpha"
    · have hf : alphaAttributes (x :: xs) = x :: alphaAttributes xs := by
        simp [alphaAttributes, hx]
      rw [hf]
      cases hl : (alphaAttributes xs).getLast? with
      | none =>
        have : alphaAttributes xs = [] := by simpa using hl
        simp [this, Parse.loopBody, hx]
      | some y =>
        have hne : alphaAttributes xs ≠ [] := by
          intro h; simp [h] at hl
        obtain ⟨z, zs, hz⟩ := List.exists_cons_of_ne_nil hne
        rw [hz] at hl ⊢
        rw [List.getLast?_cons_cons, hl]
    · have hf : alphaAttributes (x :: xs) = alphaAttributes xs := by
        simp [alphaAttributes, hx]
      rw [hf]
      simp [Parse.loopBody, hx]

theorem foldl_loopBody_eq (D : SchemaDecls) (attrs : List AttributeProto) :
    attrs.foldl Parse.loopBody { alpha := D.EluT_alpha } = { alpha := lastAlpha D attrs } := by
  have h := foldl_loopBody_alpha attrs { alpha := D.EluT_alpha }
  cases hfold : attrs.foldl Parse.loopBody { alpha := D.EluT_alpha } with
  | mk al =>
    rw [hfold] at h
    simp only [lastAlpha]
    congr

/-- C4. For every ONNX node and every non-null `op`, `Parse` leaves `op` with its
`primitive` set, of value type `PrimitiveType_Elu`, the value an `EluT` whose
`alpha` is the float of the last attribute named exactly "alpha", or the default
of the schema when the node has none; the other fields of `op` are as before.
The graph and the attributes of any other name do not affect the result: two
nodes with the same attributes named "alpha" give the same result. -/
theorem Parse_sets_elu_primitive (D : SchemaDecls) (onnx_graph : GraphProto)
    (onnx_node : NodeProto) (op : CNodeT) :
    Parse D onnx_graph onnx_node (some op) =
        (D.RET_OK,
          some { op with primitive := some (PrimitiveT.mk (PrimitiveUnion.mk D.PrimitiveType_Elu
            (some (AttrTable.Elu (EluT.mk (lastAlpha D onnx_node.attribute_)))))) })
      ∧ (∀ (g : GraphProto) (n : NodeProto),
          alphaAttributes n.attribute_ = alphaAttributes onnx_node.attribute_ →
          Parse D g n (some op) = Parse D onnx_graph onnx_node (some op)) := by
  have key : ∀ (g : GraphProto) (n : NodeProto), Parse D g n (some op) =
        (D.RET_OK,
          some { op with primitive := some (PrimitiveT.mk (PrimitiveUnion.mk D.PrimitiveType_Elu
            (some (AttrTable.Elu (EluT.mk (lastAlpha D n.attribute_)))))) }) := by
    intro g n
    simp only [Parse, foldl_loopBody_eq]
  refine ⟨key _ _, ?_⟩
  intro g n h
  rw [key, key]
  simp only [lastAlpha, h]

/-- C4 (witness). A node with the attributes alpha, beta, alpha: the second "alpha"
wins and "beta" is ignored; a node without "alpha" gets the default. -/
theorem Parse_sets_elu_primitive_witness :
    Parse sampleSchema sampleOnnxGraph sampleEluNode (some sampleCNode) =
        (0, some { sampleCNode with primitive := some (PrimitiveT.mk (PrimitiveUnion.mk 36
            (some (AttrTable.Elu (EluT.mk { bits := 22 }))))) })
      ∧ Parse sampleSchema sampleOnnxGraph { sampleEluNode with attribute_ := [] } (some sampleCNode) =
        (0, some { sampleCNode with primitive := some (PrimitiveT.mk (PrimitiveUnion.mk 36
            (some (AttrTable.Elu (EluT.mk { bits := 1 }))))) }) :=
  ⟨(Parse_sets_elu_primitive sampleSchema sampleOnnxGraph sampleEluNode sampleCNode).1,
   (Parse_sets_elu_primitive sampleSchema sampleOnnxGraph
      { sampleEluNode with attribute_ := [] } sampleCNode).1⟩

/-- C6. `Parse` never fails: for every graph, node and `op`, null or not, it returns
`RET_OK`; when `op` is null nothing is produced, the parsed attribute is dropped. -/
theorem Parse_returns_OK (D : SchemaDecls) (onnx_graph : GraphProto) (onnx_node : NodeProto)
    (op : Option CNodeT) :
    (Parse D onnx_graph onnx_node op).1 = D.RET_OK
      ∧ (Parse D onnx_graph onnx_node op).2.isSome = op.isSome
      ∧ Parse D onnx_graph onnx_node none = (D.RET_OK, none) := by
  cases op <;> simp [Parse]

/-- C6 (witness). A null `op` with a node with two attributes "alpha": `RET_OK`
and no output. -/
theorem Parse_returns_OK_witness :
    Parse sampleSchema sampleOnnxGraph sampleEluNode none = (0, none) :=
  (Parse_returns_OK sampleSchema sampleOnnxGraph sampleEluNode none).2.2

end lite
namespace kernel

/-- The object `Init` leaves behind after lines 35-46, given the first
quantization parameters `qi` of the input and `qo` of the output tensor. -/
theorem setQuantArg_of_front (D : KernelDecls) (this : CropInt8CPUKernel)
    (tin tout : Tensor) (qi qo : QuantArg) (ri ro : List QuantArg)
    (hin : this.in_tensors_[D.kInputIndex]? = some tin) (hqi : tin.quant_params_ = qi :: ri)
    (hout : this.out_tensors_[D.kOutputIndex]? = some tout) (hqo : tout.quant_params_ = qo :: ro) :
    Init.setQuantArg D this = some
      { this with crop_para_ := { this.crop_para_ with quant_arg :=
          { in_args_ := { scale_ := D.scaleToFloat qi.scale, zp_ := qi.zeroPoint },
            out_args_ := { scale_ := D.scaleToFloat qo.scale, zp_ := qo.zeroPoint },
            output_activation_min_ := int8_min,
            output_activation_max_ := int8_max } } } := by
  simp [Init.setQuantArg, hin, hqi, hout, hqo]

/-- `Init` when the base `Init` reports a status other than `RET_OK`. -/
theorem Init_of_base_failure (D : KernelDecls) (this this1 : CropInt8CPUKernel) (ret : Int)
    (hbase : D.CropBaseCPUKernel_Init this = some (ret, this1)) (hret : ret ≠ D.RET_OK) :
    Init D this = some (ret, this1) := by
  simp [Init, hbase, hret]

/-- `Init` when the base `Init` reports `RET_OK` and lines 35-46 complete. -/
theorem Init_of_setQuantArg (D : KernelDecls) (this this1 this2 : CropInt8CPUKernel)
    (hbase : D.CropBaseCPUKernel_Init this = some (D.RET_OK, this1))
    (hset : Init.setQuantArg D this1 = some this2) :
    Init D this = if D.InferShapeDone this2 then ReSize D this2 else some (D.RET_OK, this2) := by
  simp only [Init, hbase, hset, ne_eq, not_true_eq_false, if_false]
  cases D.InferShapeDone this2 <;> simp

/-- C5. When the base `Init` succeeds and the input and the output tensor each
carry at least one quantization parameter, the reads of the first parameters
succeed, and `Init` hands on (to `ReSize`, or to its caller when shape inference
is not done) an object whose input and output scale and zero point are those of
the first parameter of the input and of the output tensor and whose activation
range is -128 .. 127; nothing else of the object differs from what the base
`Init` left. -/
theorem Init_sets_quant_arg (D : KernelDecls) (this this1 : CropInt8CPUKernel)
    (tin tout : Tensor) (qi qo : QuantArg) (ri ro : List QuantArg)
    (hbase : D.CropBaseCPUKernel_Init this = some (D.RET_OK, this1))
    (hin : this1.in_tensors_[D.kInputIndex]? = some tin) (hqi : tin.quant_params_ = qi :: ri)
    (hout : this1.out_tensors_[D.kOutputIndex]? = some tout) (hqo : tout.quant_params_ = qo :: ro) :
    ∃ this2 : CropInt8CPUKernel,
      Init.setQuantArg D this1 = some this2
      ∧ Init D this = (if D.InferShapeDone this2 then ReSize D this2 else some (D.RET_OK, this2))
      ∧ this2.crop_para_.quant_arg.in_args_.scale_ = D.scaleToFloat qi.scale
      ∧ this2.crop_para_.quant_arg.in_args_.zp_ = qi.zeroPoint
      ∧ this2.crop_para_.quant_arg.out_args_.scale_ = D.scaleToFloat qo.scale
      ∧ this2.crop_para_.quant_arg.out_args_.zp_ = qo.zeroPoint
      ∧ this2.crop_para_.quant_arg.output_activation_min_ = -128
      ∧ this2.crop_para_.quant_arg.output_activation_max_ = 127
      ∧ this2 = { this1 with
          crop_para_ := { this1.crop_para_ with quant_arg := this2.crop_para_.quant_arg } } := by
  have hset := setQuantArg_of_front D this1 tin tout qi qo ri ro hin hqi hout hqo
  exact ⟨_, hset, Init_of_setQuantArg D this this1 _ hbase hset, rfl, rfl, rfl, rfl, rfl, rfl, rfl⟩

/-- C5 (witness). `Init` on the sample kernel. -/
theorem Init_sets_quant_arg_witness :
    ∃ this2 : CropInt8CPUKernel,
      Init.setQuantArg sampleDecls sampleKernel = some this2
      ∧ Init sampleDecls sampleKernel =
          (if sampleDecls.InferShapeDone this2 then ReSize sampleDecls this2
            else some (sampleDecls.RET_OK, this2))
      ∧ this2.crop_para_.quant_arg.in_args_.scale_ = sampleDecls.scaleToFloat { bits := 5 }
      ∧ this2.crop_para_.quant_arg.in_args_.zp_ = 3
      ∧ this2.crop_para_.quant_arg.out_args_.scale_ = sampleDecls.scaleToFloat { bits := 7 }
      ∧ this2.crop_para_.quant_arg.out_args_.zp_ = -2
      ∧ this2.crop_para_.quant_arg.output_activation_min_ = -128
      ∧ this2.crop_para_.quant_arg.output_activation_max_ = 127
      ∧ this2 = { sampleKernel with
          crop_para_ := { sampleKernel.crop_para_ with quant_arg := this2.crop_para_.quant_arg } } :=
  Init_sets_quant_arg sampleDecls sampleKernel sampleKernel
    { quant_params_ := [{ scale := { bits := 5 }, zeroPoint := 3 }], data_ := [1, 2, 3, 4] }
    { quant_params_ := [{ scale := { bits := 7 }, zeroPoint := -2 }], data_ := [0, 0] }
    { scale := { bits := 5 }, zeroPoint := 3 } { scale := { bits := 7 }, zeroPoint := -2 } [] []
    rfl rfl rfl rfl rfl

/-- C7 (counterexample). The base `Init` reports `RET_OK` and shape inference is
not done, yet `Init` does not return `RET_OK`: the input tensor carries no
quantization parameter and the read `in_quant_args.front()` faults. -/
theorem Init_faults_without_quant_params :
    sampleDecls.CropBaseCPUKernel_Init unquantizedKernel
        = some (sampleDecls.RET_OK, unquantizedKernel)
      ∧ sampleDecls.InferShapeDone unquantizedKernel = false
      ∧ Init sampleDecls unquantizedKernel = none
      ∧ ¬ reportsOK sampleDecls (Init sampleDecls unquantizedKernel) := by
  have hi : Init sampleDecls unquantizedKernel = none := rfl
  refine ⟨rfl, rfl, hi, ?_⟩
  rintro ⟨k, h⟩
  rw [hi] at h
  exact Option.noConfusion h

/-- C7 (amended). Let the base `Init` return status `ret` and object `this1`.  If
`ret` is not `RET_OK`, `Init` returns exactly `ret` and the object as the base
`Init` left it (no field of `crop_para_` is written), whatever `ReSize` is.
If `ret` is `RET_OK` and the input and the output tensor each carry a first
quantization parameter, then with `this2` the object after lines 35-46: when
shape inference is not done `Init` returns `RET_OK` and `this2`, whatever
`ReSize` is; when it is done `Init` returns exactly what `ReSize` returns on
`this2`. -/
theorem Init_status_propagation (D : KernelDecls) (this this1 : CropInt8CPUKernel) (ret : Int)
    (hbase : D.CropBaseCPUKernel_Init this = some (ret, this1)) :
    (ret ≠ D.RET_OK →
        Init D this = some (ret, this1)
          ∧ ∀ R, Init { D with CropBaseCPUKernel_ReSize := R } this = some (ret, this1))
      ∧ (ret = D.RET_OK →
          ∀ (tin tout : Tensor) (qi qo : QuantArg) (ri ro : List QuantArg),
            this1.in_tensors_[D.kInputIndex]? = some tin → tin.quant_params_ = qi :: ri →
            this1.out_tensors_[D.kOutputIndex]? = some tout → tout.quant_params_ = qo :: ro →
            ∃ this2, Init.setQuantArg D this1 = some this2
              ∧ (D.InferShapeDone this2 = false →
                  Init D this = some (D.RET_OK, this2)
                    ∧ ∀ R, Init { D with CropBaseCPUKernel_ReSize := R } this
                        = some (D.RET_OK, this2))
              ∧ (D.InferShapeDone this2 = true → Init D this = ReSize D this2)) := by
  constructor
  · intro hret
    refine ⟨Init_of_base_failure D this this1 ret hbase hret, ?_⟩
    intro R
    exact Init_of_base_failure { D with CropBaseCPUKernel_ReSize := R } this this1 ret hbase hret
  · intro hret tin tout qi qo ri ro hin hqi hout hqo
    subst hret
    obtain ⟨this2, hset⟩ : ∃ t, Init.setQuantArg D this1 = some t :=
      ⟨_, setQuantArg_of_front D this1 tin tout qi qo ri ro hin hqi hout hqo⟩
    refine ⟨this2, hset, ?_, ?_⟩
    · intro hdone
      have hno : ∀ R, Init { D with CropBaseCPUKernel_ReSize := R } this
          = some (D.RET_OK, this2) := by
        intro R
        have h := Init_of_setQuantArg { D with CropBaseCPUKernel_ReSize := R } this this1 _
          hbase hset
        rw [h]
        simp only [hdone]
        rfl
      exact ⟨hno D.CropBaseCPUKernel_ReSize, hno⟩
    · intro hdone
      rw [Init_of_setQuantArg D this this1 _ hbase hset]
      simp only [hdone, if_true]

/-- C7 (witness). On the sample kernel the base `Init` reports `RET_OK`, shape
inference is not done, and `Init` returns `RET_OK`; with a base `Init` that
reports `-1`, `Init` returns `-1` and the kernel untouched. -/
theorem Init_status_propagation_witness :
    (sampleDecls.CropBaseCPUKernel_Init sampleKernel = some (sampleDecls.RET_OK, sampleKernel)
      ∧ ∃ this2, Init.setQuantArg sampleDecls sampleKernel = some this2
          ∧ Init sampleDecls sampleKernel = some (sampleDecls.RET_OK, this2))
      ∧ Init failingInitDecls sampleKernel = some (-1, sampleKernel) := by
  refine ⟨⟨rfl, ?_⟩, ?_⟩
  · obtain ⟨this2, hset, hnot, _⟩ :=
      (Init_status_propagation sampleDecls sampleKernel sampleKernel sampleDecls.RET_OK rfl).2 rfl
        { quant_params_ := [{ scale := { bits := 5 }, zeroPoint := 3 }], data_ := [1, 2, 3, 4] }
        { quant_params_ := [{ scale := { bits := 7 }, zeroPoint := -2 }], data_ := [0, 0] }
        { scale := { bits := 5 }, zeroPoint := 3 } { scale := { bits := 7 }, zeroPoint := -2 } [] []
        rfl rfl rfl rfl
    exact ⟨this2, hset, (hnot rfl).1⟩
  · exact ((Init_status_propagation failingInitDecls sampleKernel sampleKernel (-1) rfl).1
      (by decide)).1

/-- C8. Let `Prepare` return status `ret` and object `this1`.  If `ret` is not
`RET_OK`, `Run` returns exactly `ret` and `this1`, whatever the launcher and the
routine `Crop` are: no task is launched and no output data is written.
Otherwise `Run` returns exactly what `ParallelLaunch` returns for the task
function `CropInt8Run`, the object `this1` and `thread_count_` tasks. -/
theorem Run_status (D : KernelDecls) (this this1 : CropInt8CPUKernel) (ret : Int)
    (hprep : D.Prepare this = some (ret, this1)) :
    Run D this =
        (if ret ≠ D.RET_OK then some (ret, this1)
          else D.ParallelLaunch this1.thread_pool_ (CropInt8Run D) this1 this1.thread_count_)
      ∧ (ret ≠ D.RET_OK →
          ∀ L C, Run { D with ParallelLaunch := L, Crop := C } this = some (ret, this1)) := by
  constructor
  · simp only [Run, hprep]
  · intro hret L C
    simp [Run, hprep, hret]

/-- C8 (witness). With a `Prepare` that reports `-1`, `Run` on the sample kernel
returns `-1` and leaves the output buffer as it was; with a `Prepare` that reports
`RET_OK`, `Run` returns the result of launching two tasks. -/
theorem Run_status_witness :
    Run failingPrepareDecls sampleKernel = some (-1, sampleKernel)
      ∧ Run sampleDecls sampleKernel
          = sampleDecls.ParallelLaunch 0 (CropInt8Run sampleDecls) sampleKernel 2 :=
  ⟨(Run_status failingPrepareDecls sampleKernel sampleKernel (-1) rfl).1,
   (Run_status sampleDecls sampleKernel sampleKernel 0 rfl).1⟩

end kernel
namespace opt

theorem bumpAllocator_fresh : Allocator.Fresh bumpAllocator := by
  intro h hmem
  have hle : ∀ (l : List Nat) (a : Nat), a ∈ l → a ≤ l.foldr max 0 := by
    intro l
    induction l with
    | nil => intro a ha; simp at ha
    | cons b bs ih =>
      intro a ha
      simp only [List.foldr_cons]
      rcases List.mem_cons.mp ha with h1 | h1
      · subst h1; exact le_max_left _ _
      · exact le_trans (ih a h1) (le_max_right _ _)
  have := hle h.live _ hmem
  simp only [bumpAllocator] at this
  omega

/-- The nine variables of a constructed pass are pairwise distinct and none of
them was alive before the construction. -/
theorem new_vars_fresh (alloc : Allocator) (hA : alloc.Fresh) (multigraph : Bool) (h : Heap) :
    (ReplaceBNGradCast2Fusion.new alloc multigraph h).1.vars.Nodup
      ∧ ∀ v ∈ (ReplaceBNGradCast2Fusion.new alloc multigraph h).1.vars, v.addr ∉ h.live := by
  simp only [ReplaceBNGradCast2Fusion.new, make_shared_Var, ReplaceBNGradCast2Fusion.vars]
  have h1 := hA h
  generalize alloc h = a1 at h1 ⊢
  have h2 := hA ⟨a1 :: h.live⟩
  generalize alloc ⟨a1 :: h.live⟩ = a2 at h2 ⊢
  have h3 := hA ⟨a2 :: a1 :: h.live⟩
  generalize alloc ⟨a2 :: a1 :: h.live⟩ = a3 at h3 ⊢
  have h4 := hA ⟨a3 :: a2 :: a1 :: h.live⟩
  generalize alloc ⟨a3 :: a2 :: a1 :: h.live⟩ = a4 at h4 ⊢
  have h5 := hA ⟨a4 :: a3 :: a2 :: a1 :: h.live⟩
  generalize alloc ⟨a4 :: a3 :: a2 :: a1 :: h.live⟩ = a5 at h5 ⊢
  have h6 := hA ⟨a5 :: a4 :: a3 :: a2 :: a1 :: h.live⟩
  generalize alloc ⟨a5 :: a4 :: a3 :: a2 :: a1 :: h.live⟩ = a6 at h6 ⊢
  have h7 := hA ⟨a6 :: a5 :: a4 :: a3 :: a2 :: a1 :: h.live⟩
  generalize alloc ⟨a6 :: a5 :: a4 :: a3 :: a2 :: a1 :: h.live⟩ = a7 at h7 ⊢
  have h8 := hA ⟨a7 :: a6 :: a5 :: a4 :: a3 :: a2 :: a1 :: h.live⟩
  generalize alloc ⟨a7 :: a6 :: a5 :: a4 :: a3 :: a2 :: a1 :: h.live⟩ = a8 at h8 ⊢
  have h9 := hA ⟨a8 :: a7 :: a6 :: a5 :: a4 :: a3 :: a2 :: a1 :: h.live⟩
  generalize alloc ⟨a8 :: a7 :: a6 :: a5 :: a4 :: a3 :: a2 :: a1 :: h.live⟩ = a9 at h9 ⊢
  simp only [List.mem_cons, not_or] at h2 h3 h4 h5 h6 h7 h8 h9
  constructor
  · simp only [List.nodup_cons, List.mem_cons, List.mem_singleton, VarPtr.mk.injEq, not_or,
      List.not_mem_nil, not_false_eq_true, List.nodup_nil, and_true]
    refine ⟨⟨?_, ?_, ?_, ?_, ?_, ?_, ?_, ?_⟩, ⟨?_, ?_, ?_, ?_, ?_, ?_, ?_⟩, ⟨?_, ?_, ?_, ?_, ?_, ?_⟩,
      ⟨?_, ?_, ?_, ?_, ?_⟩, ⟨?_, ?_, ?_, ?_⟩, ⟨?_, ?_, ?_⟩, ⟨?_, ?_⟩, ?_⟩ <;>
      first
        | (intro e; subst e; simp_all)
  · intro v hv
    simp only [List.mem_cons, List.mem_singleton, List.not_mem_nil, or_false] at hv
    rcases hv with e | e | e | e | e | e | e | e | e <;> subst e <;> simp_all


/-! ### The association list of a graph -/

theorem lookupNode_mem {l : List (NodeId × Node)} {n : NodeId} {nd : Node}
    (h : lookupNode l n = some nd) : (n, nd) ∈ l := by
  induction l with
  | nil => simp [lookupNode] at h
  | cons e rest ih =>
    obtain ⟨k, v⟩ := e
    simp only [lookupNode] at h
    by_cases hk : k = n
    · simp only [hk, if_true, Option.some.injEq] at h
      subst hk; subst h
      exact List.mem_cons_self _ _
    · simp only [hk, if_false] at h
      exact List.mem_cons_of_mem _ (ih h)

theorem lookupNode_eq_none {l : List (NodeId × Node)} {n : NodeId} :
    lookupNode l n = none ↔ ∀ e ∈ l, e.1 ≠ n := by
  induction l with
  | nil => simp [lookupNode]
  | cons e rest ih =>
    obtain ⟨k, v⟩ := e
    simp only [lookupNode, List.mem_cons, forall_eq_or_imp]
    by_cases hk : k = n
    · simp [hk]
    · simp [hk, ih]

theorem lookupNode_isSome_of_mem {l : List (NodeId × Node)} {e : NodeId × Node}
    (h : e ∈ l) : ∃ nd, lookupNode l e.1 = some nd := by
  cases hl : lookupNode l e.1 with
  | some nd => exact ⟨nd, rfl⟩
  | none => exact absurd rfl (lookupNode_eq_none.mp hl e h)

theorem lookupNode_map (F : Node → Node) (l : List (NodeId × Node)) (n : NodeId) :
    lookupNode (l.map (fun e => (e.1, F e.2))) n = (lookupNode l n).map F := by
  induction l with
  | nil => simp [lookupNode]
  | cons e rest ih =>
    obtain ⟨k, v⟩ := e
    simp only [List.map_cons, lookupNode]
    by_cases hk : k = n
    · simp [hk]
    · simp [hk, ih]

theorem lookupNode_append (l l2 : List (NodeId × Node)) (n : NodeId) :
    lookupNode (l ++ l2) n =
      match lookupNode l n with
      | some nd => some nd
      | none => lookupNode l2 n := by
  induction l with
  | nil => simp [lookupNode]
  | cons e rest ih =>
    obtain ⟨k, v⟩ := e
    simp only [List.cons_append, lookupNode]
    by_cases hk : k = n
    · simp [hk]
    · simp [hk, ih]

theorem lookupNode_filter_ne (l : List (NodeId × Node)) (m n : NodeId) :
    lookupNode (l.filter (fun e => e.1 ≠ m)) n = if n = m then none else lookupNode l n := by
  induction l with
  | nil => simp [lookupNode]
  | cons e rest ih =>
    obtain ⟨k, v⟩ := e
    by_cases hkm : k = m
    · subst hkm
      simp only [ne_eq, not_true_eq_false, decide_False, Bool.false_eq_true, not_false_eq_true,
        List.filter_cons_of_neg]
      rw [show (List.filter (fun e : NodeId × Node => decide ¬e.1 = k) rest)
            = List.filter (fun e : NodeId × Node => decide (e.1 ≠ k)) rest from rfl, ih]
      by_cases hn : n = k
      · simp [hn]
      · have : ¬ k = n := fun h => hn h.symm
        simp [hn, lookupNode, this]
    · have hd : decide (k ≠ m) = true := by simp [hkm]
      rw [List.filter_cons_of_pos (by simpa using hkm)]
      simp only [lookupNode]
      by_cases hk : k = n
      · subst hk
        simp [hkm]
      · simp only [hk, if_false]
        exact ih

theorem contains_iff (g : Graph) (n : NodeId) :
    g.contains n = true ↔ ∃ e ∈ g.nodes, e.1 = n := by
  simp [Graph.contains]

theorem lt_freshId (g : Graph) {e : NodeId × Node} (h : e ∈ g.nodes) : e.1 < g.freshId := by
  have hle : ∀ (l : List Nat) (a : Nat), a ∈ l → a ≤ l.foldr max 0 := by
    intro l
    induction l with
    | nil => intro a ha; simp at ha
    | cons b bs ih =>
      intro a ha
      simp only [List.foldr_cons]
      rcases List.mem_cons.mp ha with h1 | h1
      · subst h1; exact le_max_left _ _
      · exact le_trans (ih a h1) (le_max_right _ _)
  have := hle (g.nodes.map (fun e => e.1)) e.1 (List.mem_map_of_mem _ h)
  exact Nat.lt_succ_of_le this

theorem lookup_freshId (g : Graph) : g.lookup g.freshId = none := by
  rw [Graph.lookup, lookupNode_eq_none]
  intro e he
  exact Nat.ne_of_lt (lt_freshId g he)


/-! ### The chain and the rewritten graph -/

theorem consumers_eq_nil (g : Graph) (n : NodeId) (h : ∀ e ∈ g.nodes, n ∉ e.2.inputs) :
    g.consumers n = [] := by
  simp only [Graph.consumers, List.map_eq_nil_iff, List.filter_eq_nil_iff]
  intro e he
  simpa using h e he

theorem mem_consumers (g : Graph) (n : NodeId) {e : NodeId × Node} (he : e ∈ g.nodes)
    (hn : n ∈ e.2.inputs) : e.1 ∈ g.consumers n := by
  simp only [Graph.consumers, List.mem_map, List.mem_filter]
  exact ⟨e, ⟨he, by simpa using hn⟩, rfl⟩

theorem mem_redirect_inputs {root new i : NodeId} {l : List NodeId}
    (h : i ∈ l.map (redirectId root new)) :
    (i = new ∧ root ∈ l) ∨ (i ≠ root ∧ i ∈ l) := by
  rcases List.mem_map.mp h with ⟨j, hj, hji⟩
  simp only [redirectId] at hji
  by_cases hr : j = root
  · simp only [hr, if_true] at hji
    exact Or.inl ⟨hji.symm, hr ▸ hj⟩
  · simp only [hr, if_false] at hji
    exact Or.inr ⟨hji ▸ hr, hji ▸ hj⟩

/-- The facts about the chain that the rewrite rests on. -/
theorem chain_facts {g : Graph} {c b dy x s m v ix : NodeId} (hv : g.Valid)
    (hc : g.HasChain c b dy x s m v ix) :
    g.Edge c b ∧ c < g.freshId ∧ b < g.freshId ∧ c ≠ b
      ∧ ∀ p ∈ [dy, x, s, m, v, ix],
          g.Edge b p ∧ g.contains p = true ∧ p ≠ c ∧ p ≠ b ∧ p < g.freshId := by
  obtain ⟨ac, hcast⟩ := hc.cast_node
  obtain ⟨ab, hbn⟩ := hc.bn_node
  have hcm := lookupNode_mem hcast
  have hbm := lookupNode_mem hbn
  have hcb : g.Edge c b := ⟨_, hcm, by simp⟩
  have hne : c ≠ b := by
    intro h
    exact hv.acyclic c (Relation.TransGen.single (h ▸ hcb))
  refine ⟨hcb, lt_freshId g hcm, lt_freshId g hbm, hne, ?_⟩
  intro p hp
  have hbp : g.Edge b p := ⟨_, hbm, hp⟩
  have hcont : g.contains p = true := by
    have h1 := hv.edges
    simp only [Graph.edgeConsistent, Bool.and_eq_true, List.all_eq_true] at h1
    exact h1.1 _ hbm p hp
  refine ⟨hbp, hcont, ?_, ?_, ?_⟩
  · intro h
    exact hv.acyclic c (Relation.TransGen.tail (Relation.TransGen.single hcb) (h ▸ hbp))
  · intro h
    exact hv.acyclic b (Relation.TransGen.single (h ▸ hbp))
  · obtain ⟨e, he, hep⟩ := (contains_iff g p).mp hcont
    exact hep ▸ lt_freshId g he

/-- The nodes of the graph after redirection and insertion of the new node. -/
theorem mem_redirect_insert {g : Graph} {c f : NodeId} {nd : Node} {e : NodeId × Node} :
    e ∈ ((g.redirect c f).insert f nd).nodes ↔
      (∃ e0 ∈ g.nodes, e = (e0.1, redirectNode c f e0.2)) ∨ e = (f, nd) := by
  simp only [Graph.insert, Graph.redirect, List.mem_append, List.mem_map, List.mem_singleton]
  constructor
  · rintro (⟨e0, h0, rfl⟩ | h)
    · exact Or.inl ⟨e0, h0, rfl⟩
    · exact Or.inr h
  · rintro (⟨e0, h0, rfl⟩ | h)
    · exact Or.inl ⟨e0, h0, rfl⟩
    · exact Or.inr h

/-- Step (b) of the rewrite on the chain: both matched nodes are left without
consumer and are removed. -/
theorem removeOrphans_chain {g : Graph} {c b dy x s m v ix : NodeId} (hv : g.Valid)
    (hc : g.HasChain c b dy x s m v ix) :
    (((g.redirect c g.freshId).insert g.freshId (fusedNode dy x s m v)).removeOrphans [c, b])
      = ((((g.redirect c g.freshId).insert g.freshId (fusedNode dy x s m v)).remove c).remove b) := by
  obtain ⟨hcb, hcf, hbf, hne, hp⟩ := chain_facts hv hc
  have hfive : ∀ p ∈ (fusedNode dy x s m v).inputs, p ≠ c ∧ p ≠ b := by
    intro p hpm
    have : p ∈ [dy, x, s, m, v, ix] := by
      simp only [fusedNode, List.mem_cons, List.mem_singleton, List.not_mem_nil, or_false] at hpm
      simp only [List.mem_cons, List.mem_singleton, List.not_mem_nil, or_false]
      tauto
    exact ⟨(hp p this).2.2.1, (hp p this).2.2.2.1⟩
  -- the cast has no consumer after the redirection
  have h1 : ((g.redirect c g.freshId).insert g.freshId (fusedNode dy x s m v)).consumers c = [] := by
    apply consumers_eq_nil
    intro e he hce
    rcases mem_redirect_insert.mp he with ⟨e0, _, rfl⟩ | rfl
    · rcases mem_redirect_inputs hce with ⟨h, _⟩ | ⟨h, _⟩
      · exact Nat.ne_of_lt hcf h
      · exact h rfl
    · exact (hfive c hce).1 rfl
  have h2 : c ∉ ((g.redirect c g.freshId).insert g.freshId (fusedNode dy x s m v)).outputs := by
    intro hco
    rcases mem_redirect_inputs hco with ⟨h, _⟩ | ⟨h, _⟩
    · exact Nat.ne_of_lt hcf h
    · exact h rfl
  -- nor has the BatchNormGrad node once the cast is gone
  have h3 : (((g.redirect c g.freshId).insert g.freshId (fusedNode dy x s m v)).remove c).consumers b
      = [] := by
    apply consumers_eq_nil
    intro e he hbe
    simp only [Graph.remove, List.mem_filter, decide_eq_true_eq] at he
    rcases mem_redirect_insert.mp he.1 with ⟨e0, he0, rfl⟩ | rfl
    · rcases mem_redirect_inputs hbe with ⟨h, _⟩ | ⟨_, h⟩
      · exact Nat.ne_of_lt hbf h
      · exact he.2 (hc.only_consumer _ (@mem_consumers g b e0 he0 h))
    · exact (hfive b hbe).2 rfl
  have h4 : b ∉ (((g.redirect c g.freshId).insert g.freshId (fusedNode dy x s m v)).remove c).outputs := by
    intro hbo
    rcases mem_redirect_inputs hbo with ⟨h, _⟩ | ⟨_, h⟩
    · exact Nat.ne_of_lt hbf h
    · exact hc.not_output h
  simp only [Graph.removeOrphans, h1, h2, h3, h4, not_false_eq_true, and_self, if_true]


/-- The nodes of the graph after the rewrite of the chain. -/
theorem mem_rewritten {g : Graph} {c b f : NodeId} {nd : Node} {e : NodeId × Node} :
    e ∈ ((((g.redirect c f).insert f nd).remove c).remove b).nodes ↔
      e.1 ≠ b ∧ e.1 ≠ c ∧
        ((∃ e0 ∈ g.nodes, e = (e0.1, redirectNode c f e0.2)) ∨ e = (f, nd)) := by
  constructor
  · intro h
    simp only [Graph.remove, List.mem_filter, decide_eq_true_eq] at h
    exact ⟨h.2, h.1.2, mem_redirect_insert.mp h.1.1⟩
  · rintro ⟨h1, h2, h3⟩
    simp only [Graph.remove, List.mem_filter, decide_eq_true_eq]
    exact ⟨⟨mem_redirect_insert.mpr h3, h2⟩, h1⟩

theorem contains_rewritten {g : Graph} {c b f : NodeId} {nd : Node} {i : NodeId}
    (hb : i ≠ b) (hc : i ≠ c) (h : i = f ∨ g.contains i = true) :
    ((((g.redirect c f).insert f nd).remove c).remove b).contains i = true := by
  rw [contains_iff]
  rcases h with h | h
  · exact ⟨(f, nd), mem_rewritten.mpr ⟨h ▸ hb, h ▸ hc, Or.inr rfl⟩, h.symm⟩
  · obtain ⟨e0, he0, hi⟩ := (contains_iff g i).mp h
    exact ⟨(e0.1, redirectNode c f e0.2),
      mem_rewritten.mpr ⟨hi ▸ hb, hi ▸ hc, Or.inl ⟨e0, he0, rfl⟩⟩, hi⟩

/-- Edge consistency survives the rewrite of the chain. -/
theorem edgeConsistent_rewritten {g : Graph} {c b dy x s m v ix : NodeId} (hv : g.Valid)
    (hc : g.HasChain c b dy x s m v ix) :
    ((((g.redirect c g.freshId).insert g.freshId (fusedNode dy x s m v)).remove c).remove b).edgeConsistent
      = true := by
  obtain ⟨hcb, hcf, hbf, hne, hp⟩ := chain_facts hv hc
  have hg := hv.edges
  simp only [Graph.edgeConsistent, Bool.and_eq_true, List.all_eq_true] at hg
  simp only [Graph.edgeConsistent, Bool.and_eq_true, List.all_eq_true]
  constructor
  · intro e he i hi
    obtain ⟨heb, hec, hcase⟩ := mem_rewritten.mp he
    rcases hcase with ⟨e0, he0, rfl⟩ | rfl
    · rcases mem_redirect_inputs hi with ⟨h, _⟩ | ⟨h, hmem⟩
      · exact contains_rewritten (h ▸ (Nat.ne_of_lt hbf).symm) (h ▸ (Nat.ne_of_lt hcf).symm)
          (Or.inl h)
      · refine contains_rewritten ?_ h (Or.inr (hg.1 e0 he0 i hmem))
        intro hib
        exact hec (hc.only_consumer _ (@mem_consumers g b e0 he0 (hib ▸ hmem)))
    · have hi6 : i ∈ [dy, x, s, m, v, ix] := by
        simp only [fusedNode, List.mem_cons, List.mem_singleton, List.not_mem_nil, or_false] at hi
        simp only [List.mem_cons, List.mem_singleton, List.not_mem_nil, or_false]
        tauto
      exact contains_rewritten (hp i hi6).2.2.2.1 (hp i hi6).2.2.1 (Or.inr (hp i hi6).2.1)
  · intro o ho
    have ho2 : o ∈ g.outputs.map (redirectId c g.freshId) := ho
    rcases mem_redirect_inputs ho2 with ⟨h, _⟩ | ⟨h, hmem⟩
    · exact contains_rewritten (h ▸ (Nat.ne_of_lt hbf).symm) (h ▸ (Nat.ne_of_lt hcf).symm)
        (Or.inl h)
    · refine contains_rewritten ?_ h (Or.inr (hg.2 o hmem))
      intro hob
      exact hc.not_output (hob ▸ hmem)

/-- Acyclicity survives the rewrite of the chain: a path of the rewritten graph
is a path of the graph once the fused node is read as the cast. -/
theorem acyclic_rewritten {g : Graph} {c b dy x s m v ix : NodeId} (hv : g.Valid)
    (hc : g.HasChain c b dy x s m v ix) :
    ((((g.redirect c g.freshId).insert g.freshId (fusedNode dy x s m v)).remove c).remove b).Acyclic := by
  obtain ⟨hcb, hcf, hbf, hne, hp⟩ := chain_facts hv hc
  have hg := hv.edges
  simp only [Graph.edgeConsistent, Bool.and_eq_true, List.all_eq_true] at hg
  have key : ∀ a p,
      ((((g.redirect c g.freshId).insert g.freshId (fusedNode dy x s m v)).remove c).remove b).Edge a p →
      Relation.TransGen g.Edge (if a = g.freshId then c else a) (if p = g.freshId then c else p) := by
    rintro a p ⟨nd2, hmem, hpin⟩
    obtain ⟨_, _, hcase⟩ := mem_rewritten.mp hmem
    rcases hcase with ⟨e0, he0, heq⟩ | heq
    · have ha : a = e0.1 := congrArg Prod.fst heq
      have hnd : nd2 = redirectNode c g.freshId e0.2 := congrArg Prod.snd heq
      have haf : a ≠ g.freshId := ha ▸ Nat.ne_of_lt (lt_freshId g he0)
      rw [if_neg haf]
      rw [hnd] at hpin
      rcases mem_redirect_inputs hpin with ⟨h, hcin⟩ | ⟨_, hmem2⟩
      · rw [if_pos h]
        exact Relation.TransGen.single ⟨e0.2, ha ▸ he0, hcin⟩
      · have hcont := hg.1 e0 he0 p hmem2
        obtain ⟨e1, he1, hep⟩ := (contains_iff g p).mp hcont
        have hpf : p ≠ g.freshId := hep ▸ Nat.ne_of_lt (lt_freshId g he1)
        rw [if_neg hpf]
        exact Relation.TransGen.single ⟨e0.2, ha ▸ he0, hmem2⟩
    · have ha : a = g.freshId := congrArg Prod.fst heq
      have hnd : nd2 = fusedNode dy x s m v := congrArg Prod.snd heq
      rw [if_pos ha]
      rw [hnd] at hpin
      have hi6 : p ∈ [dy, x, s, m, v, ix] := by
        simp only [fusedNode, List.mem_cons, List.mem_singleton, List.not_mem_nil, or_false] at hpin
        simp only [List.mem_cons, List.mem_singleton, List.not_mem_nil, or_false]
        tauto
      have hpf : p ≠ g.freshId := Nat.ne_of_lt (hp p hi6).2.2.2.2
      rw [if_neg hpf]
      exact Relation.TransGen.tail (Relation.TransGen.single hcb) (hp p hi6).1
  intro n hn
  exact hv.acyclic _ (Relation.TransGen.lift' (fun a => if a = g.freshId then c else a) key hn)

theorem mem_succs {g : Graph} {a p : NodeId} : p ∈ g.succs a ↔ g.Edge a p := by
  simp only [Graph.succs, List.mem_flatMap, List.mem_filter, decide_eq_true_eq, Graph.Edge]
  constructor
  · rintro ⟨e, ⟨he, rfl⟩, hp⟩
    exact ⟨e.2, he, hp⟩
  · rintro ⟨nd, he, hp⟩
    exact ⟨(a, nd), ⟨he, rfl⟩, hp⟩

theorem reach_sound (g : Graph) (k : Nat) (a p : NodeId) (h : p ∈ g.reach k a) :
    Relation.TransGen g.Edge a p := by
  induction k generalizing a with
  | zero => simp [Graph.reach] at h
  | succ k ih =>
    simp only [Graph.reach, List.mem_append, List.mem_flatMap] at h
    rcases h with h | ⟨q, hq, hqp⟩
    · exact Relation.TransGen.single (mem_succs.mp h)
    · exact Relation.TransGen.head (mem_succs.mp hq) (ih q hqp)

/-- An acyclic graph passes the executable check. -/
theorem acyclicCheck_of_acyclic (g : Graph) (h : g.Acyclic) : g.acyclicCheck = true := by
  simp only [Graph.acyclicCheck, List.all_eq_true, Bool.not_eq_true']
  intro e _
  cases hcon : (g.reach g.nodes.length e.1).contains e.1 with
  | false => rfl
  | true =>
    have hmem : e.1 ∈ g.reach g.nodes.length e.1 := by simpa using hcon
    exact absurd (reach_sound g _ _ _ hmem) (h e.1)

/-- A graph whose edges all lead to a smaller identity is acyclic. -/
theorem acyclic_of_decreasing (g : Graph)
    (h : ∀ e ∈ g.nodes, ∀ i ∈ e.2.inputs, i < e.1) : g.Acyclic := by
  have lt : ∀ a p, Relation.TransGen g.Edge a p → p < a := by
    intro a p hap
    induction hap with
    | single hab =>
      obtain ⟨nd, hm, hi⟩ := hab
      exact h _ hm _ hi
    | tail _ hbc ih =>
      obtain ⟨nd, hm, hi⟩ := hbc
      exact lt_trans (h _ hm _ hi) ih
  intro n hn
  exact Nat.lt_irrefl n (lt n n hn)

/-- The node each identity is mapped to after the rewrite of the chain. -/
theorem lookup_rewritten (g : Graph) (c b : NodeId) (nd : Node) (n : NodeId) :
    ((((g.redirect c g.freshId).insert g.freshId nd).remove c).remove b).lookup n =
      if n = b then none else if n = c then none
      else if n = g.freshId then some nd
      else (g.lookup n).map (redirectNode c g.freshId) := by
  have hf := lookup_freshId g
  simp only [Graph.lookup] at hf
  simp only [Graph.lookup, Graph.remove, lookupNode_filter_ne, Graph.insert, Graph.redirect,
    lookupNode_append, lookupNode_map, lookupNode]
  by_cases hb : n = b
  · simp [hb]
  · by_cases hc : n = c
    · simp [hb, hc]
    · by_cases hfn : n = g.freshId
      · subst hfn
        simp [hb, hc, hf]
      · have hfn2 : ¬ g.freshId = n := fun h => hfn h.symm
        simp only [hb, hc, hfn, hfn2, if_false]
        cases lookupNode g.nodes n <;> rfl


theorem lookup_of_contains {g : Graph} {n : NodeId} (h : g.contains n = true) :
    ∃ nd, g.lookup n = some nd := by
  obtain ⟨e, he, hn⟩ := (contains_iff g n).mp h
  exact hn ▸ lookupNode_isSome_of_mem he

/-- The match of the pattern of the pass at the cast of a chain: the environment
binds the six variables of the pattern to the six producers. -/
theorem Match_chain (p : ReplaceBNGradCast2Fusion) (hnd : p.vars.Nodup) {g : Graph}
    {c b dy x s m v ix : NodeId} (hv : g.Valid) (hc : g.HasChain c b dy x s m v ix) :
    Match g p.DefinePattern c =
      some [(p.index_, ix), (p.var_, v), (p.mean_, m), (p.scale_, s), (p.x_, x), (p.dy_, dy)] := by
  obtain ⟨_, _, _, _, hp⟩ := chain_facts hv hc
  obtain ⟨ac, hcast⟩ := hc.cast_node
  obtain ⟨ab, hbn⟩ := hc.bn_node
  obtain ⟨n1, h1⟩ := lookup_of_contains (hp dy (by simp)).2.1
  obtain ⟨n2, h2⟩ := lookup_of_contains (hp x (by simp)).2.1
  obtain ⟨n3, h3⟩ := lookup_of_contains (hp s (by simp)).2.1
  obtain ⟨n4, h4⟩ := lookup_of_contains (hp m (by simp)).2.1
  obtain ⟨n5, h5⟩ := lookup_of_contains (hp v (by simp)).2.1
  obtain ⟨n6, h6⟩ := lookup_of_contains (hp ix (by simp)).2.1
  simp only [ReplaceBNGradCast2Fusion.vars, List.nodup_cons, List.mem_cons, List.mem_singleton,
    not_or, List.not_mem_nil, not_false_eq_true, List.nodup_nil, and_true] at hnd
  obtain ⟨⟨d1, d2, d3, d4, _, _, _, d8⟩, ⟨x2, x3, x4, _, _, _, x8⟩, ⟨s3, s4, _, _, _, s8⟩,
    ⟨m4, _, _, _, m8⟩, ⟨_, _, _, v8⟩, _⟩ := hnd
  simp [Match, ReplaceBNGradCast2Fusion.DefinePattern, matchNode, matchInputs, hcast, hbn,
    arityOk, arity, h1, h2, h3, h4, h5, h6, Environment.bind, Environment.find,
    d1, d2, d3, d4, d8, x2, x3, x4, x8, s3, s4, s8, m4, m8, v8]

/-- The variables of the pass resolve, in the environment of the match, to the
producers they were bound to, and the builder yields the fused node. -/
theorem resolve_chain (p : ReplaceBNGradCast2Fusion) (hnd : p.vars.Nodup)
    (dy x s m v ix : NodeId) (equiv : Environment)
    (he : equiv = [(p.index_, ix), (p.var_, v), (p.mean_, m), (p.scale_, s), (p.x_, x), (p.dy_, dy)]) :
    equiv.resolve p.dy_ = Except.ok dy ∧ equiv.resolve p.x_ = Except.ok x
      ∧ equiv.resolve p.scale_ = Except.ok s ∧ equiv.resolve p.mean_ = Except.ok m
      ∧ equiv.resolve p.var_ = Except.ok v ∧ equiv.resolve p.index_ = Except.ok ix
      ∧ p.Build equiv = Except.ok (fusedNode dy x s m v) := by
  subst he
  simp only [ReplaceBNGradCast2Fusion.vars, List.nodup_cons, List.mem_cons, List.mem_singleton,
    not_or, List.not_mem_nil, not_false_eq_true, List.nodup_nil, and_true] at hnd
  obtain ⟨⟨d1, d2, d3, d4, _, _, _, d8⟩, ⟨x2, x3, x4, _, _, _, x8⟩, ⟨s3, s4, _, _, _, s8⟩,
    ⟨m4, _, _, _, m8⟩, ⟨_, _, _, v8⟩, _⟩ := hnd
  have r1 : Environment.resolve
      [(p.index_, ix), (p.var_, v), (p.mean_, m), (p.scale_, s), (p.x_, x), (p.dy_, dy)] p.dy_
      = Except.ok dy := by
    simp [Environment.resolve, Environment.find, Ne.symm d1, Ne.symm d2, Ne.symm d3, Ne.symm d4,
      Ne.symm d8]
  have r2 : Environment.resolve
      [(p.index_, ix), (p.var_, v), (p.mean_, m), (p.scale_, s), (p.x_, x), (p.dy_, dy)] p.x_
      = Except.ok x := by
    simp [Environment.resolve, Environment.find, Ne.symm x2, Ne.symm x3, Ne.symm x4, Ne.symm x8]
  have r3 : Environment.resolve
      [(p.index_, ix), (p.var_, v), (p.mean_, m), (p.scale_, s), (p.x_, x), (p.dy_, dy)] p.scale_
      = Except.ok s := by
    simp [Environment.resolve, Environment.find, Ne.symm s3, Ne.symm s4, Ne.symm s8]
  have r4 : Environment.resolve
      [(p.index_, ix), (p.var_, v), (p.mean_, m), (p.scale_, s), (p.x_, x), (p.dy_, dy)] p.mean_
      = Except.ok m := by
    simp [Environment.resolve, Environment.find, Ne.symm m4, Ne.symm m8]
  have r5 : Environment.resolve
      [(p.index_, ix), (p.var_, v), (p.mean_, m), (p.scale_, s), (p.x_, x), (p.dy_, dy)] p.var_
      = Except.ok v := by
    simp [Environment.resolve, Environment.find, Ne.symm v8]
  have r6 : Environment.resolve
      [(p.index_, ix), (p.var_, v), (p.mean_, m), (p.scale_, s), (p.x_, x), (p.dy_, dy)] p.index_
      = Except.ok ix := by
    simp [Environment.resolve, Environment.find]
  refine ⟨r1, r2, r3, r4, r5, r6, ?_⟩
  simp only [ReplaceBNGradCast2Fusion.Build, r1, r2, r3, r4, r5, fusedNode]
  rfl

/-- The matched nodes of a chain are the cast and the `BatchNormGrad` node. -/
theorem matchedNodes_chain (p : ReplaceBNGradCast2Fusion) {g : Graph}
    {c b dy x s m v ix : NodeId} (hc : g.HasChain c b dy x s m v ix) :
    matchedNodes g p.DefinePattern c = [c, b] := by
  obtain ⟨ac, hcast⟩ := hc.cast_node
  obtain ⟨ab, hbn⟩ := hc.bn_node
  simp [ReplaceBNGradCast2Fusion.DefinePattern, matchedNodes, matchedInputs, hcast, hbn]

/-- The rewrite of a chain succeeds and yields the graph with the fused node in
place of the two matched nodes. -/
theorem Process_chain (p : ReplaceBNGradCast2Fusion) (hnd : p.vars.Nodup) {g : Graph}
    {c b dy x s m v ix : NodeId} (hv : g.Valid) (hc : g.HasChain c b dy x s m v ix) :
    p.Process g c [(p.index_, ix), (p.var_, v), (p.mean_, m), (p.scale_, s), (p.x_, x), (p.dy_, dy)]
      = ReplacementOutcome.Success
          ((((g.redirect c g.freshId).insert g.freshId (fusedNode dy x s m v)).remove c).remove b)
          g.freshId := by
  have hb := (resolve_chain p hnd dy x s m v ix _ rfl).2.2.2.2.2.2
  have hchk : arityOk (fusedNode dy x s m v).kind (fusedNode dy x s m v).inputs.length = true
      ∧ (fusedNode dy x s m v).inputs.all (fun i =>
          (List.map (fun b : VarPtr × NodeId => b.2)
            [(p.index_, ix), (p.var_, v), (p.mean_, m), (p.scale_, s), (p.x_, x), (p.dy_, dy)]).contains i)
          = true := by
    simp [fusedNode, arityOk, arity]
  simp only [ReplaceBNGradCast2Fusion.Process, rewrite, hb, matchedNodes_chain p hc, hchk,
    removeOrphans_chain hv hc, edgeConsistent_rewritten hv hc,
    acyclicCheck_of_acyclic _ (acyclic_rewritten hv hc), and_self, if_true]


/-- The variables of a constructed pass are alive after the construction. -/
theorem new_vars_alive (alloc : Allocator) (multigraph : Bool) (h : Heap) :
    ∀ v ∈ (ReplaceBNGradCast2Fusion.new alloc multigraph h).1.vars,
      v.addr ∈ (ReplaceBNGradCast2Fusion.new alloc multigraph h).2.live := by
  intro v hv
  simp only [ReplaceBNGradCast2Fusion.new, make_shared_Var, ReplaceBNGradCast2Fusion.vars,
    List.mem_cons, List.mem_singleton, List.not_mem_nil, or_false] at hv
  simp only [ReplaceBNGradCast2Fusion.new, make_shared_Var, List.mem_cons]
  rcases hv with e | e | e | e | e | e | e | e | e <;> subst e <;> simp

/-- C1. Constructing a pass yields nine pattern variables that are pairwise
distinct and newly created: none of them was alive before the construction, all
of them are alive after it.  A second pass, constructed while the variables of
the first are alive, shares no variable with the first. -/
theorem constructed_vars_not_shared (alloc : Allocator) (hA : alloc.Fresh)
    (m1 m2 : Bool) (h1 h2 : Heap) (p1 p2 : ReplaceBNGradCast2Fusion)
    (hp1 : p1 = (ReplaceBNGradCast2Fusion.new alloc m1 h1).1)
    (hp2 : p2 = (ReplaceBNGradCast2Fusion.new alloc m2 h2).1)
    (halive : ∀ v ∈ p1.vars, v.addr ∈ h2.live) :
    p1.vars = [p1.dy_, p1.x_, p1.scale_, p1.mean_, p1.var_, p1.dx_, p1.bn_scale_, p1.bn_bias_,
        p1.index_]
      ∧ p1.vars.Nodup
      ∧ (∀ v ∈ p1.vars, v.addr ∉ h1.live)
      ∧ (∀ v ∈ p1.vars, v.addr ∈ (ReplaceBNGradCast2Fusion.new alloc m1 h1).2.live)
      ∧ p2.vars.Nodup
      ∧ (∀ v ∈ p1.vars, v ∉ p2.vars) := by
  subst hp1 hp2
  refine ⟨rfl, (new_vars_fresh alloc hA m1 h1).1, (new_vars_fresh alloc hA m1 h1).2,
    new_vars_alive alloc m1 h1, (new_vars_fresh alloc hA m2 h2).1, ?_⟩
  intro v hv1 hv2
  exact (new_vars_fresh alloc hA m2 h2).2 v hv2 (halive v hv1)

/-- C1 (witness). Two passes constructed one after the other on an empty free
store: the variables of the first are at the addresses 1 to 9, those of the
second at 10 to 18. -/
theorem constructed_vars_not_shared_witness :
    (ReplaceBNGradCast2Fusion.new bumpAllocator true { live := [] }).1.vars
        = [⟨1⟩, ⟨2⟩, ⟨3⟩, ⟨4⟩, ⟨5⟩, ⟨6⟩, ⟨7⟩, ⟨8⟩, ⟨9⟩]
      ∧ (ReplaceBNGradCast2Fusion.new bumpAllocator false
          (ReplaceBNGradCast2Fusion.new bumpAllocator true { live := [] }).2).1.vars
        = [⟨10⟩, ⟨11⟩, ⟨12⟩, ⟨13⟩, ⟨14⟩, ⟨15⟩, ⟨16⟩, ⟨17⟩, ⟨18⟩]
      ∧ ∀ v ∈ (ReplaceBNGradCast2Fusion.new bumpAllocator true { live := [] }).1.vars,
          v ∉ (ReplaceBNGradCast2Fusion.new bumpAllocator false
            (ReplaceBNGradCast2Fusion.new bumpAllocator true { live := [] }).2).1.vars :=
  ⟨rfl, rfl,
    (constructed_vars_not_shared bumpAllocator bumpAllocator_fresh true false { live := [] }
      (ReplaceBNGradCast2Fusion.new bumpAllocator true { live := [] }).2 _ _ rfl rfl
      (new_vars_alive bumpAllocator true { live := [] })).2.2.2.2.2⟩

/-- C2. For a pass object `p` as constructed and every valid graph that holds the
chain Cast(BatchNormGrad(dy,x,scale,mean,var,index)) at the nodes `cast` and `bn`,
with no other consumer of `bn`: the match at `cast` succeeds and its environment
binds the variables dy, x, scale, mean, var of the pass to the producers `dy`, `x`,
`scale`, `mean`, `var`; `Process` succeeds and returns one new node, whose inputs
are these five producers in this order; in the graph it yields, `cast` and `bn`
are no longer nodes, and every other node is kept, its edges from `cast` now
coming from the new node. -/
theorem Process_fuses_cast_chain (alloc : Allocator) (hA : alloc.Fresh) (multigraph : Bool)
    (h : Heap) (p : ReplaceBNGradCast2Fusion)
    (hp : p = (ReplaceBNGradCast2Fusion.new alloc multigraph h).1)
    (g : Graph) (cast bn dy x scale mean var index : NodeId)
    (hv : g.Valid) (hc : g.HasChain cast bn dy x scale mean var index) :
    ∃ (equiv : Environment) (g2 : Graph),
      Match g p.DefinePattern cast = some equiv
      ∧ equiv.resolve p.dy_ = Except.ok dy
      ∧ equiv.resolve p.x_ = Except.ok x
      ∧ equiv.resolve p.scale_ = Except.ok scale
      ∧ equiv.resolve p.mean_ = Except.ok mean
      ∧ equiv.resolve p.var_ = Except.ok var
      ∧ p.Process g cast equiv = ReplacementOutcome.Success g2 g.freshId
      ∧ g.lookup g.freshId = none
      ∧ g2.lookup g.freshId = some
          { kind := Kind.FusedBatchNormGrad, inputs := [dy, x, scale, mean, var], attrs := [] }
      ∧ g2.lookup cast = none
      ∧ g2.lookup bn = none
      ∧ (∀ n, n ≠ cast → n ≠ bn → n ≠ g.freshId →
          g2.lookup n = (g.lookup n).map (redirectNode cast g.freshId))
      ∧ g2.outputs = g.outputs.map (redirectId cast g.freshId)
      ∧ g2.Valid := by
  have hnd : p.vars.Nodup := hp ▸ (new_vars_fresh alloc hA multigraph h).1
  obtain ⟨_, hcf, hbf, hne, _⟩ := chain_facts hv hc
  obtain ⟨r1, r2, r3, r4, r5, _, _⟩ := resolve_chain p hnd dy x scale mean var index _ rfl
  refine ⟨_, _, Match_chain p hnd hv hc, r1, r2, r3, r4, r5, Process_chain p hnd hv hc,
    lookup_freshId g, ?_, ?_, ?_, ?_, rfl,
    ⟨edgeConsistent_rewritten hv hc, acyclic_rewritten hv hc⟩⟩
  · rw [lookup_rewritten]
    simp only [Nat.ne_of_gt hbf, Nat.ne_of_gt hcf, if_false, if_true]
    rfl
  · rw [lookup_rewritten]
    simp [hne]
  · rw [lookup_rewritten]
    simp
  · intro n h1 h2 h3
    rw [lookup_rewritten]
    simp [h1, h2, h3]

theorem sampleGraph_valid : sampleGraph.Valid := by
  refine ⟨by decide, acyclic_of_decreasing _ ?_⟩
  decide

theorem sampleGraph_hasChain : sampleGraph.HasChain 8 7 1 2 3 4 5 6 :=
  ⟨⟨[], rfl⟩, ⟨[], rfl⟩, by decide, by decide⟩

/-- C2 (witness). On the sample graph the match at node 8 binds the variables to
the nodes 1 to 6, and `Process` returns the new node 10 over the producers 1 to 5
in a graph without the nodes 7 and 8, whose node 9 now consumes node 10. -/
theorem Process_fuses_cast_chain_witness :
    Match sampleGraph samplePass.DefinePattern 8
        = some [(⟨9⟩, 6), (⟨5⟩, 5), (⟨4⟩, 4), (⟨3⟩, 3), (⟨2⟩, 2), (⟨1⟩, 1)]
      ∧ samplePass.Process sampleGraph 8 [(⟨9⟩, 6), (⟨5⟩, 5), (⟨4⟩, 4), (⟨3⟩, 3), (⟨2⟩, 2), (⟨1⟩, 1)]
        = ReplacementOutcome.Success
            { nodes := [(1, leafNode 1), (2, leafNode 2), (3, leafNode 3), (4, leafNode 4),
                        (5, leafNode 5), (6, leafNode 6),
                        (9, { kind := Kind.Other 0, inputs := [10], attrs := [] }),
                        (10, { kind := Kind.FusedBatchNormGrad, inputs := [1, 2, 3, 4, 5],
                               attrs := [] })],
              outputs := [9] }
            10
      ∧ ∃ (equiv : Environment) (g2 : Graph),
          Match sampleGraph samplePass.DefinePattern 8 = some equiv
          ∧ samplePass.Process sampleGraph 8 equiv = ReplacementOutcome.Success g2 10
          ∧ g2.lookup 10 = some
              { kind := Kind.FusedBatchNormGrad, inputs := [1, 2, 3, 4, 5], attrs := [] }
          ∧ g2.lookup 8 = none
          ∧ g2.lookup 7 = none := by
  refine ⟨by decide, by decide, ?_⟩
  obtain ⟨equiv, g2, h1, _, _, _, _, _, h7, _, h9, h10, h11, _⟩ :=
    Process_fuses_cast_chain bumpAllocator bumpAllocator_fresh true { live := [] } samplePass rfl
      sampleGraph 8 7 1 2 3 4 5 6 sampleGraph_valid sampleGraph_hasChain
  exact ⟨equiv, g2, h1, h7, h9, h10, h11⟩

end opt
end mindspore
